import Mathlib

/-!
# SevenZipExtractor::ExtractArchive

A shallow embedding of `src/third-part/7z/SevenZip/SevenZipExtractor.cpp`.

The extractor talks to three collaborators whose code is outside the file:
the archive reader (`IInArchive`), the caller's `ProgressCallback` and the
platform (`FileSys`, `FormatMessage`, `UsefulFunctions`).  They are taken as
records of response functions.  Within one call of `ExtractArchive` every
operation is invoked at most once for a given argument tuple, so responses
indexed by the arguments cover every deterministic collaborator.  The calls
that the extractor makes are recorded, in order, in a list of `Call`s.

Two places of the source have undefined behaviour, and a run that reaches
one returns no status (`Outcome.result = none`): the dereference of a null
reader at line 60, and the three message blocks (lines 34-41, 63-70,
141-148), which read the local `msgBuf` exactly when `FormatMessage` has
returned 0 and so has not written it.  Text that the source passes on as a
pointer to NUL-terminated characters (lines 57, 112, 135) ends before its
first NUL (`c_str`).
-/

namespace SevenZip

/-! ## Platform types and constants -/

/-- A COM status: a signed 32-bit value. -/
abbrev HRESULT := Int

/-- Text as the extractor stores it (`TString`, `std::wstring`, `BSTR`). -/
abbrev TString := String

def S_OK : HRESULT := 0

/-- The value 0x80004005 read as a signed 32-bit integer. -/
def E_FAIL : HRESULT := -2147467259

def ERROR_OPEN_FAILED : HRESULT := 110

def VT_EMPTY : Nat := 0

def VT_BSTR : Nat := 8

/-- The number of values of `UInt32`. -/
def UInt32_size : Nat := 4294967296

/-- The two property identifiers that `ExtractArchive` reads. -/
inductive PROPID where
  | kpidPath
  | kpidSize
  deriving DecidableEq, Repr

/-- The fields of a `PROPVARIANT` that `ExtractArchive` looks at: the type
tag `vt`, the 64-bit `uhVal.QuadPart` and the string `bstrVal`.  The union
is flattened: `uhVal` is whatever the quad part holds after the call and is
copied without looking at `vt` (line 100); `bstrVal` is looked at only when
`vt` is `VT_BSTR` (line 112), and is the whole content of the `BSTR`, which
may hold NUL characters.  The `BSTR` is taken to be a non-null pointer: line
112 reads through it without a test. -/
structure PROPVARIANT where
  vt : Nat
  uhVal : Nat
  bstrVal : TString
  deriving DecidableEq, Repr

/-- A byte stream handed to the extractor. -/
abbrev IStream := List Nat

/-- The format tag kept in `m_compressionFormat`; the enumeration itself is
declared outside this file, so its values are left uninterpreted. -/
abbrev CompressionFormatEnum := Nat

/-- Modelled from the spec: the overwrite modes of `OverwriteModeEnum`, whose
declaration is outside this file (the constructor of the extractor names
`kWithoutPrompt`). -/
inductive OverwriteModeEnum where
  | kWithoutPrompt
  | kSkipExisting
  | kPromptUser
  | kOverwriteAll
  deriving DecidableEq, Repr

structure SevenZipPassword where
  PasswordIsDefined : Bool
  Password : TString
  deriving DecidableEq, Repr

structure InStreamWrapper where
  baseStream : IStream
  deriving DecidableEq, Repr

/-- Modelled from the spec: the state of `ArchiveOpenCallback` (declared in
ArchiveOpenCallback.h, outside this file): `passwordIsDefined`, `password`,
undefined and empty when freshly constructed. -/
structure ArchiveOpenCallback where
  PasswordIsDefined : Bool := false
  Password : TString := ""
  deriving DecidableEq, Repr

/-- The arguments an `ArchiveExtractCallback` is built from, and its two
password fields.  The progress callback it is bound to is recorded by
whether the pointer is non-null. -/
structure ArchiveExtractCallback where
  directory : TString
  overwriteMode : OverwriteModeEnum
  hasCallback : Bool
  PasswordIsDefined : Bool := false
  Password : TString := ""
  deriving DecidableEq, Repr

/-! ## Collaborators -/

/-- The archive reader.  `GetNumberOfItems` gives the returned status and the
content of `mynumofitems` after the call; `GetProperty i id` gives the returned
status and the content of `prop` after the call. -/
structure IInArchive where
  Open : InStreamWrapper → Option Nat → ArchiveOpenCallback → HRESULT
  GetNumberOfItems : HRESULT × Nat
  GetProperty : Nat → PROPID → HRESULT × PROPVARIANT
  Extract : Option (List Nat) → Nat → Bool → ArchiveExtractCallback → HRESULT

/-- The two operations of the caller's callback whose answer `ExtractArchive`
branches on (`OnEnd` returns nothing). -/
structure ProgressCallback where
  OnFileCount : Nat → Bool
  OnFileItems : List TString → List Nat → Bool

/-- The platform.  `FormatMessage code` gives the returned character count
and the text of the message.  A count other than 0 is success: a buffer
holding the text was allocated and `msgBuf` was made to point at it.  The
count 0 is failure: nothing was allocated, `msgBuf` was not written, and the
text counts for nothing.
`DetectCompressionFormat path fmt` gives the returned flag and the new
content of `m_compressionFormat`.  `GetArchiveReader` gives `none` for a null
reader. -/
structure Platform where
  FormatMessage : HRESULT → Nat × TString
  DetectCompressionFormat : TString → CompressionFormatEnum → Bool × CompressionFormatEnum
  OpenFileToRead : TString → Option IStream
  GetArchiveReader : CompressionFormatEnum → Option IInArchive

/-! ## The extractor object -/

structure SevenZipExtractor where
  m_archivePath : TString
  m_compressionFormat : CompressionFormatEnum
  m_overwriteMode : OverwriteModeEnum := OverwriteModeEnum.kWithoutPrompt
  m_message : TString := ""
  deriving DecidableEq, Repr

/-- One call made by the extractor to a collaborator, with its arguments. -/
inductive Call where
  | DetectCompressionFormat
  | OpenFileToRead (path : TString)
  | GetArchiveReader (format : CompressionFormatEnum)
  | Open (inFile : InStreamWrapper) (maxCheckStartPosition : Option Nat)
      (openCallback : ArchiveOpenCallback)
  | GetNumberOfItems
  | OnFileCount (n : Nat)
  | GetProperty (index : Nat) (propID : PROPID)
  | OnFileItems (names : List TString) (sizes : List Nat)
  | NewArchiveExtractCallback (cb : ArchiveExtractCallback)
  | Extract (indices : Option (List Nat)) (numItems : Nat) (testMode : Bool)
      (extractCallback : ArchiveExtractCallback)
  | OnEnd (path : TString)
  | Close
  deriving DecidableEq, Repr

/-- Operations of the caller's `ProgressCallback`. -/
def Call.isCallbackOp : Call → Bool
  | Call.OnFileCount _ => true
  | Call.OnFileItems _ _ => true
  | Call.OnEnd _ => true
  | _ => false

/-- The calls made before `OnFileItems`: acquiring and opening the reader,
counting and reading the entries. -/
def Call.beforeItems : Call → Bool
  | Call.GetArchiveReader _ => true
  | Call.Open _ _ _ => true
  | Call.GetNumberOfItems => true
  | Call.OnFileCount _ => true
  | Call.GetProperty _ _ => true
  | _ => false

def Call.isGetArchiveReader : Call → Bool
  | Call.GetArchiveReader _ => true
  | _ => false

def Call.isOpen : Call → Bool
  | Call.Open _ _ _ => true
  | _ => false

def Call.isGetProperty : Call → Bool
  | Call.GetProperty _ _ => true
  | _ => false

def Call.isOnFileItems : Call → Bool
  | Call.OnFileItems _ _ => true
  | _ => false

def Call.isOnEnd : Call → Bool
  | Call.OnEnd _ => true
  | _ => false

def Call.isExtract : Call → Bool
  | Call.Extract _ _ _ _ => true
  | _ => false

def Call.isNewArchiveExtractCallback : Call → Bool
  | Call.NewArchiveExtractCallback _ => true
  | _ => false

/-- What a call of `ExtractArchive` leaves behind: the extractor object, the
calls made in order, and the returned status.  The status is `none` when the
call runs into undefined behaviour and returns nothing: the null reader is
dereferenced at line 60, or the local `msgBuf`, declared without a value and
never written, is read and freed at lines 39-40, 68-69 or 146-147.  The
object and the calls are then those up to that point. -/
structure Outcome where
  self : SevenZipExtractor
  calls : List Call
  result : Option HRESULT
  deriving DecidableEq, Repr

/-! ## The code -/

/-- The text that a pointer to the NUL-terminated characters of `s` denotes:
the characters of `s` before its first NUL.  This is what `s.c_str()` hands
over (lines 57 and 135) and what a `std::wstring` built from a `BSTR` holds
(line 112). -/
def c_str (s : TString) : TString :=
  String.mk (s.data.takeWhile fun c => c != Char.ofNat 0)

/-- Lines 52-58: the open callback, with the caller's password when one is
given. -/
def newOpenCallback (pSevenZipPassword : Option SevenZipPassword) : ArchiveOpenCallback :=
  match pSevenZipPassword with
  | some p => { PasswordIsDefined := p.PasswordIsDefined, Password := c_str p.Password }
  | none => {}

/-- Line 131: the extract callback as its constructor leaves it. -/
def newExtractCallback (self : SevenZipExtractor) (destDirectory : TString)
    (callback : Option ProgressCallback) : ArchiveExtractCallback :=
  { directory := destDirectory, overwriteMode := self.m_overwriteMode,
    hasCallback := callback.isSome }

/-- Lines 132-136: the extract callback after the password fields are set. -/
def setExtractPassword (extractCallback : ArchiveExtractCallback)
    (pSevenZipPassword : Option SevenZipPassword) : ArchiveExtractCallback :=
  match pSevenZipPassword with
  | some p =>
    { extractCallback with
      PasswordIsDefined := p.PasswordIsDefined, Password := c_str p.Password }
  | none => extractCallback

/-- The block that follows each failure (lines 34-41, 63-70, 141-148).
`msgBuf` is declared without a value.  When `FormatMessage` returns 0 it has
not written `msgBuf`, and the block assigns `m_message` from that pointer and
frees it: undefined behaviour, `none`.  When `FormatMessage` returns another
count the block is skipped and the extractor is left as it was. -/
def captureMessage (env : Platform) (self : SevenZipExtractor) (code : HRESULT) :
    Option SevenZipExtractor :=
  let r := env.FormatMessage code
  if r.1 = 0 then none else some self

/-- The variables of the enumeration loop (lines 82-113). -/
structure EnumState where
  hr : HRESULT
  succ : Bool
  itemnames : List TString
  origsizes : List Nat
  calls : List Call
  deriving DecidableEq, Repr

/-- The loop `for (UInt32 i = 0; i < numberofitems; ++i)` of lines 89-113,
entered at index `i` with `k = numberofitems - i` iterations to go. -/
def enumerateItems (archive : IInArchive) : Nat → Nat → EnumState → EnumState
  | 0, _, st => st
  | k + 1, i, st =>
    let r := archive.GetProperty i PROPID.kpidSize
    let calls := st.calls ++ [Call.GetProperty i PROPID.kpidSize]
    if r.1 ≠ S_OK then
      { st with hr := r.1, succ := false, calls := calls }
    else
      let size := r.2.uhVal
      let origsizes := st.origsizes ++ [size]
      let r2 := archive.GetProperty i PROPID.kpidPath
      let calls := calls ++ [Call.GetProperty i PROPID.kpidPath]
      if r2.1 ≠ S_OK then
        { st with hr := r2.1, succ := false, origsizes := origsizes, calls := calls }
      else
        let itemnames :=
          st.itemnames ++ [if r2.2.vt = VT_BSTR then c_str r2.2.bstrVal else ""]
        enumerateItems archive k (i + 1)
          { hr := r2.1, succ := st.succ, itemnames := itemnames, origsizes := origsizes,
            calls := calls }

/-- Lines 131-155: build the extract callback, extract everything, run the
message block on failure, report the end, close, return the extract status. -/
def extractAndClose (env : Platform) (self : SevenZipExtractor) (archive : IInArchive)
    (destDirectory : TString) (callback : Option ProgressCallback)
    (pSevenZipPassword : Option SevenZipPassword) (calls : List Call) : Outcome :=
  let extractCallback0 := newExtractCallback self destDirectory callback
  let calls := calls ++ [Call.NewArchiveExtractCallback extractCallback0]
  let extractCallback := setExtractPassword extractCallback0 pSevenZipPassword
  let hr := archive.Extract none (UInt32_size - 1) false extractCallback
  let calls := calls ++ [Call.Extract none (UInt32_size - 1) false extractCallback]
  match (if hr ≠ S_OK then captureMessage env self hr else some self) with
  | none => { self := self, calls := calls, result := none }
  | some self =>
    let calls :=
      match callback with
      | some _ => calls ++ [Call.OnEnd self.m_archivePath]
      | none => calls
    let calls := calls ++ [Call.Close]
    { self := self, calls := calls, result := some hr }

/-- The stream form of `SevenZipExtractor::ExtractArchive` (lines 48-156). -/
def ExtractArchiveStream (env : Platform) (self : SevenZipExtractor) (archiveStream : IStream)
    (destDirectory : TString) (callback : Option ProgressCallback)
    (pSevenZipPassword : Option SevenZipPassword) : Outcome :=
  let calls := [Call.GetArchiveReader self.m_compressionFormat]
  let inFile : InStreamWrapper := { baseStream := archiveStream }
  let openCallback := newOpenCallback pSevenZipPassword
  match env.GetArchiveReader self.m_compressionFormat with
  | none => { self := self, calls := calls, result := none }
  | some archive =>
    let hr := archive.Open inFile none openCallback
    let calls := calls ++ [Call.Open inFile none openCallback]
    if hr ≠ S_OK then
      match captureMessage env self hr with
      | none => { self := self, calls := calls, result := none }
      | some self => { self := self, calls := calls, result := some hr }
    else
      match callback with
      | none => extractAndClose env self archive destDirectory callback pSevenZipPassword calls
      | some cb =>
        let r := archive.GetNumberOfItems
        let mynumofitems := r.2 % UInt32_size
        let hr := r.1
        let calls := calls ++ [Call.GetNumberOfItems]
        let calls := calls ++ [Call.OnFileCount mynumofitems]
        if cb.OnFileCount mynumofitems then
          let numberofitems := mynumofitems
          let st := enumerateItems archive numberofitems 0
            { hr := hr, succ := true, itemnames := [], origsizes := [], calls := calls }
          if !st.succ then
            { self := self, calls := st.calls ++ [Call.Close], result := some E_FAIL }
          else
            let calls := st.calls ++ [Call.OnFileItems st.itemnames st.origsizes]
            if !cb.OnFileItems st.itemnames st.origsizes then
              { self := self, calls := calls ++ [Call.Close], result := some S_OK }
            else
              extractAndClose env self archive destDirectory callback pSevenZipPassword calls
        else
          extractAndClose env self archive destDirectory callback pSevenZipPassword calls

/-- The path form of `SevenZipExtractor::ExtractArchive` (lines 27-46). -/
def ExtractArchivePath (env : Platform) (self : SevenZipExtractor) (destDirectory : TString)
    (callback : Option ProgressCallback) (pSevenZipPassword : Option SevenZipPassword) :
    Outcome :=
  let d := env.DetectCompressionFormat self.m_archivePath self.m_compressionFormat
  let self := { self with m_compressionFormat := d.2 }
  let calls := [Call.DetectCompressionFormat, Call.OpenFileToRead self.m_archivePath]
  match env.OpenFileToRead self.m_archivePath with
  | none =>
    match captureMessage env self ERROR_OPEN_FAILED with
    | none => { self := self, calls := calls, result := none }
    | some self => { self := self, calls := calls, result := some ERROR_OPEN_FAILED }
  | some fileStream =>
    let o := ExtractArchiveStream env self fileStream destDirectory callback pSevenZipPassword
    { o with calls := calls ++ o.calls }

/-- The accessor `SevenZipExtractor::GetErrorString` (lines 158-161). -/
def GetErrorString (self : SevenZipExtractor) : TString :=
  self.m_message

/-- The content of `mynumofitems` after line 77. -/
def itemCount (archive : IInArchive) : Nat :=
  archive.GetNumberOfItems.2 % UInt32_size

/-- The name pushed at line 112 for entry `i`. -/
def itemName (archive : IInArchive) (i : Nat) : TString :=
  let prop := (archive.GetProperty i PROPID.kpidPath).2
  if prop.vt = VT_BSTR then c_str prop.bstrVal else ""

/-- The size pushed at line 102 for entry `i`. -/
def itemSize (archive : IInArchive) (i : Nat) : Nat :=
  (archive.GetProperty i PROPID.kpidSize).2.uhVal

/-! ## Names for the values the statements speak about -/

/-- The status that `reader.Open` returns at line 60. -/
def openStatus (archive : IInArchive) (archiveStream : IStream)
    (pSevenZipPassword : Option SevenZipPassword) : HRESULT :=
  archive.Open { baseStream := archiveStream } none (newOpenCallback pSevenZipPassword)

/-- The two calls every run with a reader starts with (lines 50 and 60). -/
def openCalls (self : SevenZipExtractor) (archiveStream : IStream)
    (pSevenZipPassword : Option SevenZipPassword) : List Call :=
  [Call.GetArchiveReader self.m_compressionFormat,
   Call.Open { baseStream := archiveStream } none (newOpenCallback pSevenZipPassword)]

/-- The extract callback handed to `reader.Extract` at line 138. -/
def extractCallbackOf (self : SevenZipExtractor) (destDirectory : TString)
    (callback : Option ProgressCallback) (pSevenZipPassword : Option SevenZipPassword) :
    ArchiveExtractCallback :=
  setExtractPassword (newExtractCallback self destDirectory callback) pSevenZipPassword

/-- The status that `reader.Extract` returns at line 138. -/
def extractStatus (archive : IInArchive) (self : SevenZipExtractor) (destDirectory : TString)
    (callback : Option ProgressCallback) (pSevenZipPassword : Option SevenZipPassword) :
    HRESULT :=
  archive.Extract none (UInt32_size - 1) false
    (extractCallbackOf self destDirectory callback pSevenZipPassword)

/-- The call of line 138: all entries (null index list, count `UInt32(-1)`),
test mode off. -/
def extractCall (self : SevenZipExtractor) (destDirectory : TString)
    (callback : Option ProgressCallback) (pSevenZipPassword : Option SevenZipPassword) : Call :=
  Call.Extract none (UInt32_size - 1) false
    (extractCallbackOf self destDirectory callback pSevenZipPassword)

/-- The message block run after a failure with status `code` is passed safely:
`FormatMessage` returns a count other than 0 for `code`. -/
def HasMessage (env : Platform) (code : HRESULT) : Prop :=
  (env.FormatMessage code).1 ≠ 0

/-- Every read of entries `0 .. itemCount - 1` returns `S_OK`. -/
def AllReadsSucceed (archive : IInArchive) : Prop :=
  ∀ i, i < itemCount archive →
    (archive.GetProperty i PROPID.kpidSize).1 = S_OK ∧
    (archive.GetProperty i PROPID.kpidPath).1 = S_OK

/-- The names handed to `OnFileItems` when every read succeeds. -/
def allNames (archive : IInArchive) : List TString :=
  (List.range (itemCount archive)).map (itemName archive)

/-- The sizes handed to `OnFileItems` when every read succeeds. -/
def allSizes (archive : IInArchive) : List Nat :=
  (List.range (itemCount archive)).map (itemSize archive)

/-- The loop variables on entry to the enumeration (lines 76-88). -/
def enumStart (archive : IInArchive) (calls : List Call) : EnumState :=
  { hr := archive.GetNumberOfItems.1, succ := true, itemnames := [], origsizes := [],
    calls := calls ++ [Call.GetNumberOfItems] ++ [Call.OnFileCount (itemCount archive)] }

/-- The loop variables when the enumeration loop is left. -/
def enumEnd (archive : IInArchive) (calls : List Call) : EnumState :=
  enumerateItems archive (itemCount archive) 0 (enumStart archive calls)

/-! ## Sample collaborators used to evaluate the code -/

/-- A reader over a fixed table of entries: `Open` answers `openHr`, entry
`i` has the size and name of `entries[i]`, both reads of entry `failAt` (when
given) fail, and `Extract` answers `extractHr`. -/
def tableReader (openHr : HRESULT) (entries : List (TString × Nat)) (failAt : Option Nat)
    (extractHr : HRESULT) : IInArchive where
  Open := fun _ _ _ => openHr
  GetNumberOfItems := (S_OK, entries.length)
  GetProperty := fun i id =>
    if failAt = some i then (E_FAIL, { vt := VT_EMPTY, uhVal := 0, bstrVal := "" })
    else
      match entries.get? i, id with
      | some e, PROPID.kpidSize => (S_OK, { vt := 21, uhVal := e.2, bstrVal := "" })
      | some e, PROPID.kpidPath => (S_OK, { vt := VT_BSTR, uhVal := 0, bstrVal := e.1 })
      | none, _ => (S_OK, { vt := VT_EMPTY, uhVal := 0, bstrVal := "" })
  Extract := fun _ _ _ _ => extractHr

/-- A platform on which `FormatMessage` answers every code with the length
of `msg` and `msg` (so it fails when `msg` is empty), format detection fails,
the path `openable` (when given) opens as `bytes`, and every format tag is
served by `archive`. -/
def samplePlatform (msg : TString) (openable : Option TString) (bytes : IStream)
    (archive : IInArchive) : Platform where
  FormatMessage := fun _ => (msg.length, msg)
  DetectCompressionFormat := fun _ _ => (false, 0)
  OpenFileToRead := fun p => if openable = some p then some bytes else none
  GetArchiveReader := fun _ => some archive

def sampleExtractor : SevenZipExtractor :=
  { m_archivePath := "a.7z", m_compressionFormat := 0 }

def twoEntries : List (TString × Nat) := [("readme.txt", 6), ("data/a.bin", 1024)]

/-- A reader that opens and extracts the two entries without error. -/
def goodReader : IInArchive := tableReader S_OK twoEntries none S_OK

/-- A reader whose `Open` fails with `E_FAIL`. -/
def closedReader : IInArchive := tableReader E_FAIL twoEntries none S_OK

/-- A reader on which both reads of entry 1 fail. -/
def brokenEntryReader : IInArchive := tableReader S_OK twoEntries (some 1) S_OK

/-- A reader whose `Extract` fails with `E_FAIL`. -/
def failingExtractReader : IInArchive := tableReader S_OK twoEntries none E_FAIL

/-- A platform with no openable path that serves `archive` for every tag. -/
def platformOf (archive : IInArchive) : Platform :=
  samplePlatform "Unspecified error" none [] archive

/-- As `platformOf`, but `FormatMessage` has no message for any code: it
returns 0. -/
def silentPlatform (archive : IInArchive) : Platform :=
  samplePlatform "" none [] archive

/-- One entry whose stored path holds a NUL character. -/
def nulEntries : List (TString × Nat) := [("ab\x00cd", 4)]

/-- A reader over `nulEntries` that opens and extracts without error. -/
def nulNameReader : IInArchive := tableReader S_OK nulEntries none S_OK

/-- The extractor object when the stream form is entered from the path form:
`DetectCompressionFormat` (line 29) has left its tag in `m_compressionFormat`. -/
def afterDetection (env : Platform) (self : SevenZipExtractor) : SevenZipExtractor :=
  { self with
    m_compressionFormat :=
      (env.DetectCompressionFormat self.m_archivePath self.m_compressionFormat).2 }

/-- Sixteen bytes that carry no archive signature. -/
def sixteenBytes : IStream := [83, 12, 201, 7, 99, 250, 3, 41, 17, 66, 128, 9, 54, 231, 77, 5]

/-- The stream form run on the sixteen bytes with the sample extractor,
destination "out" and no password. -/
def sampleRun (archive : IInArchive) (callback : Option ProgressCallback) : Outcome :=
  ExtractArchiveStream (platformOf archive) sampleExtractor sixteenBytes "out" callback none

/-- As `sampleRun`, on the platform without messages. -/
def silentRun (archive : IInArchive) (callback : Option ProgressCallback) : Outcome :=
  ExtractArchiveStream (silentPlatform archive) sampleExtractor sixteenBytes "out" callback none

def acceptAll : ProgressCallback where
  OnFileCount := fun _ => true
  OnFileItems := fun _ _ => true

def cancelAtItems : ProgressCallback where
  OnFileCount := fun _ => true
  OnFileItems := fun _ _ => false

def skipEnumeration : ProgressCallback where
  OnFileCount := fun _ => false
  OnFileItems := fun _ _ => true

/-! ## The enumeration loop -/

theorem enumerateItems_calls (archive : IInArchive) (k i : Nat) (st : EnumState) :
    ∃ extra, (enumerateItems archive k i st).calls = st.calls ++ extra ∧
      ∀ c ∈ extra, ∃ j id, c = Call.GetProperty j id ∧ i ≤ j ∧ j < i + k := by
  induction k generalizing i st with
  | zero => exact ⟨[], by simp [enumerateItems]⟩
  | succ k ih =>
    unfold enumerateItems
    by_cases h1 : (archive.GetProperty i PROPID.kpidSize).1 = S_OK
    · by_cases h2 : (archive.GetProperty i PROPID.kpidPath).1 = S_OK
      · simp only [h1, h2, ne_eq, not_true_eq_false, if_false]
        obtain ⟨extra, he, hall⟩ := ih (i + 1)
          { hr := S_OK, succ := st.succ,
            itemnames := st.itemnames ++
              [if (archive.GetProperty i PROPID.kpidPath).2.vt = VT_BSTR
                then c_str (archive.GetProperty i PROPID.kpidPath).2.bstrVal else ""],
            origsizes := st.origsizes ++ [(archive.GetProperty i PROPID.kpidSize).2.uhVal],
            calls := st.calls ++ [Call.GetProperty i PROPID.kpidSize] ++
              [Call.GetProperty i PROPID.kpidPath] }
        refine ⟨[Call.GetProperty i PROPID.kpidSize, Call.GetProperty i PROPID.kpidPath] ++ extra,
          ?_, ?_⟩
        · rw [he]; simp
        · intro c hc
          simp only [List.cons_append, List.nil_append, List.mem_cons] at hc
          rcases hc with rfl | rfl | hc
          · exact ⟨i, _, rfl, le_refl _, by omega⟩
          · exact ⟨i, _, rfl, le_refl _, by omega⟩
          · obtain ⟨j, id, rfl, h3, h4⟩ := hall c hc
            exact ⟨j, id, rfl, by omega, by omega⟩
      · simp only [h1, h2, ne_eq, not_true_eq_false, not_false_eq_true, if_false, if_true]
        refine ⟨[Call.GetProperty i PROPID.kpidSize, Call.GetProperty i PROPID.kpidPath], by simp, ?_⟩
        intro c hc
        simp only [List.mem_cons, List.mem_singleton, List.not_mem_nil, or_false] at hc
        rcases hc with rfl | rfl
        · exact ⟨i, _, rfl, le_refl _, by omega⟩
        · exact ⟨i, _, rfl, le_refl _, by omega⟩
    · simp only [h1, ne_eq, not_false_eq_true, if_true]
      refine ⟨[Call.GetProperty i PROPID.kpidSize], by simp, ?_⟩
      intro c hc
      simp only [List.mem_singleton] at hc
      subst hc
      exact ⟨i, _, rfl, le_refl _, by omega⟩

theorem enumerateItems_ok (archive : IInArchive) (k i : Nat) (st : EnumState)
    (hok : ∀ j, i ≤ j → j < i + k →
      (archive.GetProperty j PROPID.kpidSize).1 = S_OK ∧
      (archive.GetProperty j PROPID.kpidPath).1 = S_OK) :
    (enumerateItems archive k i st).succ = st.succ ∧
    (enumerateItems archive k i st).itemnames
      = st.itemnames ++ (List.range' i k).map (itemName archive) ∧
    (enumerateItems archive k i st).origsizes
      = st.origsizes ++ (List.range' i k).map (itemSize archive) := by
  induction k generalizing i st with
  | zero => simp [enumerateItems]
  | succ k ih =>
    obtain ⟨h1, h2⟩ := hok i (le_refl _) (by omega)
    unfold enumerateItems
    simp only [h1, h2, ne_eq, not_true_eq_false, if_false]
    obtain ⟨a, b, c⟩ := ih (i + 1)
      { hr := S_OK, succ := st.succ,
        itemnames := st.itemnames ++
          [if (archive.GetProperty i PROPID.kpidPath).2.vt = VT_BSTR
            then c_str (archive.GetProperty i PROPID.kpidPath).2.bstrVal else ""],
        origsizes := st.origsizes ++ [(archive.GetProperty i PROPID.kpidSize).2.uhVal],
        calls := st.calls ++ [Call.GetProperty i PROPID.kpidSize] ++
          [Call.GetProperty i PROPID.kpidPath] }
      (fun j hj1 hj2 => hok j (by omega) (by omega))
    refine ⟨a, ?_, ?_⟩
    · rw [b]; simp [List.range'_succ, itemName]
    · rw [c]; simp [List.range'_succ, itemSize]

theorem enumerateItems_fail (archive : IInArchive) (k i : Nat) (st : EnumState) (j0 : Nat)
    (hlo : i ≤ j0) (hhi : j0 < i + k)
    (hbad : (archive.GetProperty j0 PROPID.kpidSize).1 ≠ S_OK ∨
      (archive.GetProperty j0 PROPID.kpidPath).1 ≠ S_OK) :
    (enumerateItems archive k i st).succ = false ∧
    ∃ extra, (enumerateItems archive k i st).calls = st.calls ++ extra ∧
      ∀ c ∈ extra, ∃ j id, c = Call.GetProperty j id ∧ j ≤ j0 := by
  induction k generalizing i st with
  | zero => omega
  | succ k ih =>
    unfold enumerateItems
    by_cases h1 : (archive.GetProperty i PROPID.kpidSize).1 = S_OK
    · by_cases h2 : (archive.GetProperty i PROPID.kpidPath).1 = S_OK
      · have hne : i ≠ j0 := by
          rintro rfl
          rcases hbad with h | h
          · exact h h1
          · exact h h2
        simp only [h1, h2, ne_eq, not_true_eq_false, if_false]
        obtain ⟨hs, extra, he, hall⟩ := ih (i + 1)
          { hr := S_OK, succ := st.succ,
            itemnames := st.itemnames ++
              [if (archive.GetProperty i PROPID.kpidPath).2.vt = VT_BSTR
                then c_str (archive.GetProperty i PROPID.kpidPath).2.bstrVal else ""],
            origsizes := st.origsizes ++ [(archive.GetProperty i PROPID.kpidSize).2.uhVal],
            calls := st.calls ++ [Call.GetProperty i PROPID.kpidSize] ++
              [Call.GetProperty i PROPID.kpidPath] }
          (by omega) (by omega)
        refine ⟨hs, [Call.GetProperty i PROPID.kpidSize, Call.GetProperty i PROPID.kpidPath]
          ++ extra, ?_, ?_⟩
        · rw [he]; simp
        · intro c hc
          simp only [List.cons_append, List.nil_append, List.mem_cons] at hc
          rcases hc with rfl | rfl | hc
          · exact ⟨i, _, rfl, hlo⟩
          · exact ⟨i, _, rfl, hlo⟩
          · exact hall c hc
      · simp only [h1, h2, ne_eq, not_true_eq_false, not_false_eq_true, if_false, if_true]
        refine ⟨trivial, [Call.GetProperty i PROPID.kpidSize,
          Call.GetProperty i PROPID.kpidPath], by simp, ?_⟩
        intro c hc
        simp only [List.mem_cons, List.mem_singleton, List.not_mem_nil, or_false] at hc
        rcases hc with rfl | rfl
        · exact ⟨i, _, rfl, hlo⟩
        · exact ⟨i, _, rfl, hlo⟩
    · simp only [h1, ne_eq, not_false_eq_true, if_true]
      refine ⟨trivial, [Call.GetProperty i PROPID.kpidSize], by simp, ?_⟩
      intro c hc
      simp only [List.mem_singleton] at hc
      subst hc
      exact ⟨i, _, rfl, hlo⟩

theorem enumerateItems_succ_true (archive : IInArchive) (k i : Nat) (st : EnumState)
    (h : (enumerateItems archive k i st).succ = true) :
    ∀ j, i ≤ j → j < i + k →
      (archive.GetProperty j PROPID.kpidSize).1 = S_OK ∧
      (archive.GetProperty j PROPID.kpidPath).1 = S_OK := by
  intro j hlo hhi
  by_contra hcon
  have hbad : (archive.GetProperty j PROPID.kpidSize).1 ≠ S_OK ∨
      (archive.GetProperty j PROPID.kpidPath).1 ≠ S_OK := by
    by_contra hh
    push_neg at hh
    exact hcon hh
  have := (enumerateItems_fail archive k i st j hlo hhi hbad).1
  rw [this] at h
  exact Bool.noConfusion h

/-! ## The paths through the stream form -/

theorem captureMessage_of_hasMessage (env : Platform) (self : SevenZipExtractor) (code : HRESULT)
    (h : HasMessage env code) : captureMessage env self code = some self := by
  unfold HasMessage at h
  simp [captureMessage, h]

theorem captureMessage_of_silent (env : Platform) (self : SevenZipExtractor) (code : HRESULT)
    (h : ¬ HasMessage env code) : captureMessage env self code = none := by
  unfold HasMessage at h
  simp only [ne_eq, not_not] at h
  simp [captureMessage, h]

/-- Lines 131-155 when the message block is passed safely: `Extract` succeeded,
or `FormatMessage` has a message for its status. -/
theorem extractAndClose_ok (env : Platform) (self : SevenZipExtractor) (archive : IInArchive)
    (d : TString) (callback : Option ProgressCallback) (pw : Option SevenZipPassword)
    (calls : List Call)
    (hMsg : extractStatus archive self d callback pw ≠ S_OK →
      HasMessage env (extractStatus archive self d callback pw)) :
    extractAndClose env self archive d callback pw calls =
      { self := self,
        calls := calls ++ [Call.NewArchiveExtractCallback (newExtractCallback self d callback),
            extractCall self d callback pw]
          ++ (if callback.isSome then [Call.OnEnd self.m_archivePath] else [])
          ++ [Call.Close],
        result := some (extractStatus archive self d callback pw) } := by
  by_cases h : extractStatus archive self d callback pw = S_OK
  · have h2 := h
    unfold extractStatus extractCallbackOf at h2
    cases callback <;> simp [extractAndClose, extractCall, extractCallbackOf, extractStatus, h2]
  · have hc := captureMessage_of_hasMessage env self _ (hMsg h)
    have h2 := h
    unfold extractStatus extractCallbackOf at h2 hc
    cases callback <;>
      simp [extractAndClose, extractCall, extractCallbackOf, extractStatus, h2, hc]

/-- Lines 131-149 when `Extract` failed and `FormatMessage` returns 0: the run
stops in the message block, before `OnEnd` and `Close`. -/
theorem extractAndClose_fault (env : Platform) (self : SevenZipExtractor) (archive : IInArchive)
    (d : TString) (callback : Option ProgressCallback) (pw : Option SevenZipPassword)
    (calls : List Call)
    (hFail : extractStatus archive self d callback pw ≠ S_OK)
    (hNo : ¬ HasMessage env (extractStatus archive self d callback pw)) :
    extractAndClose env self archive d callback pw calls =
      { self := self,
        calls := calls ++ [Call.NewArchiveExtractCallback (newExtractCallback self d callback),
            extractCall self d callback pw],
        result := none } := by
  have hc := captureMessage_of_silent env self _ hNo
  have h2 := hFail
  unfold extractStatus extractCallbackOf at h2 hc
  simp [extractAndClose, extractCall, extractCallbackOf, h2, hc]

/-- The calls of lines 131-155 in either case. -/
theorem extractAndClose_calls (env : Platform) (self : SevenZipExtractor) (archive : IInArchive)
    (d : TString) (callback : Option ProgressCallback) (pw : Option SevenZipPassword)
    (calls : List Call) :
    ∃ rest, (rest = [] ∨ rest = (if callback.isSome then [Call.OnEnd self.m_archivePath] else [])
        ++ [Call.Close]) ∧
      (extractAndClose env self archive d callback pw calls).calls =
        calls ++ [Call.NewArchiveExtractCallback (newExtractCallback self d callback),
            extractCall self d callback pw] ++ rest := by
  by_cases hMsg : extractStatus archive self d callback pw ≠ S_OK →
      HasMessage env (extractStatus archive self d callback pw)
  · refine ⟨_, Or.inr rfl, ?_⟩
    rw [extractAndClose_ok env self archive d callback pw calls hMsg]
    simp
  · refine ⟨[], Or.inl rfl, ?_⟩
    simp only [Classical.not_imp] at hMsg
    rw [extractAndClose_fault env self archive d callback pw calls hMsg.1 hMsg.2]
    simp

theorem stream_unfold (env : Platform) (self : SevenZipExtractor) (s : IStream) (d : TString)
    (callback : Option ProgressCallback) (pw : Option SevenZipPassword) (archive : IInArchive)
    (hR : env.GetArchiveReader self.m_compressionFormat = some archive) :
    ExtractArchiveStream env self s d callback pw =
      if openStatus archive s pw ≠ S_OK then
        { self := self, calls := openCalls self s pw,
          result := if (env.FormatMessage (openStatus archive s pw)).1 = 0 then none
            else some (openStatus archive s pw) }
      else
        match callback with
        | none => extractAndClose env self archive d none pw (openCalls self s pw)
        | some cb =>
          if cb.OnFileCount (itemCount archive) then
            if (enumEnd archive (openCalls self s pw)).succ = false then
              { self := self, calls := (enumEnd archive (openCalls self s pw)).calls ++ [Call.Close],
                result := some E_FAIL }
            else if cb.OnFileItems (enumEnd archive (openCalls self s pw)).itemnames
                (enumEnd archive (openCalls self s pw)).origsizes = false then
              { self := self,
                calls := (enumEnd archive (openCalls self s pw)).calls ++
                  [Call.OnFileItems (enumEnd archive (openCalls self s pw)).itemnames
                    (enumEnd archive (openCalls self s pw)).origsizes] ++ [Call.Close],
                result := some S_OK }
            else
              extractAndClose env self archive d (some cb) pw
                ((enumEnd archive (openCalls self s pw)).calls ++
                  [Call.OnFileItems (enumEnd archive (openCalls self s pw)).itemnames
                    (enumEnd archive (openCalls self s pw)).origsizes])
          else
            extractAndClose env self archive d (some cb) pw
              (openCalls self s pw ++ [Call.GetNumberOfItems] ++
                [Call.OnFileCount (itemCount archive)])
        := by
  unfold ExtractArchiveStream
  simp only [hR]
  by_cases h1 : archive.Open { baseStream := s } none (newOpenCallback pw) = S_OK
  · cases callback with
    | none => simp [openStatus, openCalls, h1]
    | some cb =>
      simp only [openStatus, openCalls, enumEnd, enumStart, itemCount]
      simp only [h1, ne_eq, not_true_eq_false, if_false]
      by_cases h2 : cb.OnFileCount (archive.GetNumberOfItems.2 % UInt32_size) = true
      · simp only [h2, if_true]
        simp
      · simp only [h2]
        simp
  · simp only [openStatus, openCalls, h1, ne_eq, not_false_eq_true, if_true]
    by_cases h0 : (env.FormatMessage
        (archive.Open { baseStream := s } none (newOpenCallback pw))).1 = 0
    · simp [captureMessage, h0]
    · simp [captureMessage, h0]

theorem enumEnd_calls (archive : IInArchive) (calls : List Call) :
    ∃ extra, (enumEnd archive calls).calls
        = calls ++ [Call.GetNumberOfItems, Call.OnFileCount (itemCount archive)] ++ extra ∧
      ∀ c ∈ extra, ∃ j id, c = Call.GetProperty j id ∧ j < itemCount archive := by
  obtain ⟨extra, he, hall⟩ :=
    enumerateItems_calls archive (itemCount archive) 0 (enumStart archive calls)
  refine ⟨extra, ?_, ?_⟩
  · rw [enumEnd, he]; simp [enumStart]
  · intro c hc
    obtain ⟨j, id, rfl, _, h⟩ := hall c hc
    exact ⟨j, id, rfl, by omega⟩

theorem enumEnd_ok (archive : IInArchive) (calls : List Call) (h : AllReadsSucceed archive) :
    (enumEnd archive calls).succ = true ∧
    (enumEnd archive calls).itemnames = allNames archive ∧
    (enumEnd archive calls).origsizes = allSizes archive := by
  obtain ⟨a, b, c⟩ := enumerateItems_ok archive (itemCount archive) 0 (enumStart archive calls)
    (fun j _ hj => h j (by omega))
  refine ⟨?_, ?_, ?_⟩
  · rw [enumEnd, a]; rfl
  · rw [enumEnd, b]; simp [enumStart, allNames, List.range_eq_range']
  · rw [enumEnd, c]; simp [enumStart, allSizes, List.range_eq_range']

theorem enumEnd_succ (archive : IInArchive) (calls : List Call)
    (h : (enumEnd archive calls).succ = true) : AllReadsSucceed archive := by
  intro i hi
  exact enumerateItems_succ_true archive (itemCount archive) 0 (enumStart archive calls) h i
    (Nat.zero_le _) (by omega)

theorem enumEnd_fail (archive : IInArchive) (calls : List Call) (i : Nat)
    (hi : i < itemCount archive)
    (hbad : (archive.GetProperty i PROPID.kpidSize).1 ≠ S_OK ∨
      (archive.GetProperty i PROPID.kpidPath).1 ≠ S_OK) :
    (enumEnd archive calls).succ = false ∧
    ∃ extra, (enumEnd archive calls).calls
        = calls ++ [Call.GetNumberOfItems, Call.OnFileCount (itemCount archive)] ++ extra ∧
      ∀ c ∈ extra, ∃ j id, c = Call.GetProperty j id ∧ j ≤ i := by
  obtain ⟨hs, extra, he, hall⟩ :=
    enumerateItems_fail archive (itemCount archive) 0 (enumStart archive calls) i
      (Nat.zero_le _) (by omega) hbad
  refine ⟨hs, extra, ?_, hall⟩
  rw [enumEnd, he]; simp [enumStart]

/-- The outcome of the cancel path (lines 122-127). -/
theorem stream_cancel (env : Platform) (self : SevenZipExtractor) (s : IStream) (d : TString)
    (cb : ProgressCallback) (pw : Option SevenZipPassword) (archive : IInArchive)
    (hR : env.GetArchiveReader self.m_compressionFormat = some archive)
    (hOpen : openStatus archive s pw = S_OK)
    (hCount : cb.OnFileCount (itemCount archive) = true)
    (hReads : AllReadsSucceed archive)
    (hItems : cb.OnFileItems (allNames archive) (allSizes archive) = false) :
    ∃ extra, (∀ c ∈ extra, c.isGetProperty = true) ∧
      ExtractArchiveStream env self s d (some cb) pw =
        { self := self,
          calls := openCalls self s pw ++
            [Call.GetNumberOfItems, Call.OnFileCount (itemCount archive)] ++ extra ++
            [Call.OnFileItems (allNames archive) (allSizes archive), Call.Close],
          result := some S_OK } := by
  obtain ⟨hs, hn, hz⟩ := enumEnd_ok archive (openCalls self s pw) hReads
  obtain ⟨extra, he, hall⟩ := enumEnd_calls archive (openCalls self s pw)
  refine ⟨extra, ?_, ?_⟩
  · intro c hc
    obtain ⟨j, id, rfl, _⟩ := hall c hc
    rfl
  · rw [stream_unfold env self s d (some cb) pw archive hR]
    simp [hOpen, hCount, hs, hn, hz, hItems, he]

theorem enumEnd_beforeItems (archive : IInArchive) (self : SevenZipExtractor) (s : IStream)
    (pw : Option SevenZipPassword) :
    ∀ c ∈ (enumEnd archive (openCalls self s pw)).calls, c.beforeItems = true := by
  obtain ⟨extra, he, hall⟩ := enumEnd_calls archive (openCalls self s pw)
  intro c hc
  rw [he] at hc
  simp only [openCalls, List.append_assoc, List.cons_append, List.nil_append, List.mem_cons,
    List.mem_append, List.mem_singleton, List.not_mem_nil, or_false, false_or] at hc
  rcases hc with rfl | rfl | rfl | rfl | hc
  · rfl
  · rfl
  · rfl
  · rfl
  · obtain ⟨j, id, rfl, _⟩ := hall c hc
    rfl

/-- Every call of lines 131-155 is one made before, or one of the four calls
of these lines. -/
theorem extractAndClose_mem (env : Platform) (self : SevenZipExtractor) (archive : IInArchive)
    (d : TString) (callback : Option ProgressCallback) (pw : Option SevenZipPassword)
    (calls : List Call) (c : Call)
    (h : c ∈ (extractAndClose env self archive d callback pw calls).calls) :
    c ∈ calls ∨ c = Call.NewArchiveExtractCallback (newExtractCallback self d callback) ∨
      c = extractCall self d callback pw ∨ c = Call.OnEnd self.m_archivePath ∨ c = Call.Close := by
  obtain ⟨rest, hrest, he⟩ := extractAndClose_calls env self archive d callback pw calls
  rw [he] at h
  rw [List.mem_append, List.mem_append] at h
  rcases h with (h | h) | h
  · exact Or.inl h
  · simp only [List.mem_cons, List.mem_singleton, List.not_mem_nil, or_false] at h
    rcases h with h | h
    · exact Or.inr (Or.inl h)
    · exact Or.inr (Or.inr (Or.inl h))
  · rcases hrest with hrest | hrest
    · rw [hrest] at h
      simp at h
    · rw [hrest] at h
      cases callback with
      | none =>
        simp at h
        exact Or.inr (Or.inr (Or.inr (Or.inr h)))
      | some cb =>
        simp at h
        rcases h with h | h
        · exact Or.inr (Or.inr (Or.inr (Or.inl h)))
        · exact Or.inr (Or.inr (Or.inr (Or.inr h)))

/-- When `OnFileItems names sizes` is among the calls, the run went through
a successful open, a true `OnFileCount` and a complete enumeration, and the
arguments are the enumerated names and sizes. -/
theorem onFileItems_mem (env : Platform) (self : SevenZipExtractor) (s : IStream) (d : TString)
    (callback : Option ProgressCallback) (pw : Option SevenZipPassword)
    (names : List TString) (sizes : List Nat)
    (h : Call.OnFileItems names sizes ∈ (ExtractArchiveStream env self s d callback pw).calls) :
    ∃ archive cb, env.GetArchiveReader self.m_compressionFormat = some archive ∧
      callback = some cb ∧ openStatus archive s pw = S_OK ∧
      cb.OnFileCount (itemCount archive) = true ∧ AllReadsSucceed archive ∧
      names = allNames archive ∧ sizes = allSizes archive := by
  cases hR : env.GetArchiveReader self.m_compressionFormat with
  | none =>
    simp [ExtractArchiveStream, hR] at h
  | some archive =>
    rw [stream_unfold env self s d callback pw archive hR] at h
    have hb := enumEnd_beforeItems archive self s pw
    by_cases hOpen : openStatus archive s pw = S_OK
    · simp only [hOpen, ne_eq, not_true_eq_false, if_false] at h
      cases callback with
      | none =>
        have := extractAndClose_mem _ _ _ _ _ _ _ _ h
        simp [openCalls, extractCall] at this
      | some cb =>
        simp only at h
        by_cases hCount : cb.OnFileCount (itemCount archive) = true
        · simp only [hCount, if_true] at h
          by_cases hs : (enumEnd archive (openCalls self s pw)).succ = true
          · have hok := enumEnd_succ archive _ hs
            obtain ⟨_, hn, hz⟩ := enumEnd_ok archive (openCalls self s pw) hok
            have hb2 : Call.OnFileItems names sizes ∉ (enumEnd archive (openCalls self s pw)).calls := by
              intro hm
              have := hb _ hm
              simp [Call.beforeItems] at this
            have key : names = allNames archive ∧ sizes = allSizes archive := by
              by_cases hItems : cb.OnFileItems (allNames archive) (allSizes archive) = false
              · simpa [hs, hn, hz, hItems, hb2] using h
              · simp only [hs, hn, hz, hItems, Bool.true_eq_false, if_false] at h
                have := extractAndClose_mem _ _ _ _ _ _ _ _ h
                simpa [hb2, extractCall] using this
            obtain ⟨k1, k2⟩ := key
            exact ⟨archive, cb, rfl, rfl, hOpen, hCount, hok, k1, k2⟩
          · simp only [Bool.not_eq_true] at hs
            simp only [hs, if_true, List.mem_append, List.mem_singleton] at h
            rcases h with h | h
            · have := hb _ h; simp [Call.beforeItems] at this
            · cases h
        · simp only [hCount, Bool.false_eq_true, if_false] at h
          have := extractAndClose_mem _ _ _ _ _ _ _ _ h
          simp [openCalls, extractCall] at this
    · simp [hOpen, openCalls] at h

/-- Helper: the six paths through the stream form once a reader is obtained,
and the two ways each failure can end.  A property that holds of the outcome
of each path holds of the call. -/
theorem stream_paths (env : Platform) (self : SevenZipExtractor) (s : IStream) (d : TString)
    (callback : Option ProgressCallback) (pw : Option SevenZipPassword) (archive : IInArchive)
    (hR : env.GetArchiveReader self.m_compressionFormat = some archive)
    (P : Outcome → Prop)
    (openFailed : openStatus archive s pw ≠ S_OK → HasMessage env (openStatus archive s pw) →
      P { self := self, calls := openCalls self s pw,
          result := some (openStatus archive s pw) })
    (openFault : openStatus archive s pw ≠ S_OK → ¬ HasMessage env (openStatus archive s pw) →
      P { self := self, calls := openCalls self s pw, result := none })
    (noCallback : openStatus archive s pw = S_OK → callback = none →
      P (extractAndClose env self archive d none pw (openCalls self s pw)))
    (skipped : ∀ cb, openStatus archive s pw = S_OK → callback = some cb →
      cb.OnFileCount (itemCount archive) = false →
      P (extractAndClose env self archive d (some cb) pw
        (openCalls self s pw ++ [Call.GetNumberOfItems, Call.OnFileCount (itemCount archive)])))
    (readFailed : ∀ cb extra, openStatus archive s pw = S_OK → callback = some cb →
      cb.OnFileCount (itemCount archive) = true →
      (∀ c ∈ extra, ∃ j id, c = Call.GetProperty j id ∧ j < itemCount archive) →
      ¬ AllReadsSucceed archive →
      P { self := self,
          calls := openCalls self s pw ++
            [Call.GetNumberOfItems, Call.OnFileCount (itemCount archive)] ++ extra ++ [Call.Close],
          result := some E_FAIL })
    (cancelled : ∀ cb extra, openStatus archive s pw = S_OK → callback = some cb →
      cb.OnFileCount (itemCount archive) = true →
      (∀ c ∈ extra, ∃ j id, c = Call.GetProperty j id ∧ j < itemCount archive) →
      AllReadsSucceed archive →
      cb.OnFileItems (allNames archive) (allSizes archive) = false →
      P { self := self,
          calls := openCalls self s pw ++
            [Call.GetNumberOfItems, Call.OnFileCount (itemCount archive)] ++ extra ++
            [Call.OnFileItems (allNames archive) (allSizes archive), Call.Close],
          result := some S_OK })
    (extracted : ∀ cb extra, openStatus archive s pw = S_OK → callback = some cb →
      cb.OnFileCount (itemCount archive) = true →
      (∀ c ∈ extra, ∃ j id, c = Call.GetProperty j id ∧ j < itemCount archive) →
      AllReadsSucceed archive →
      cb.OnFileItems (allNames archive) (allSizes archive) = true →
      P (extractAndClose env self archive d (some cb) pw
        (openCalls self s pw ++
          [Call.GetNumberOfItems, Call.OnFileCount (itemCount archive)] ++ extra ++
          [Call.OnFileItems (allNames archive) (allSizes archive)]))) :
    P (ExtractArchiveStream env self s d callback pw) := by
  obtain ⟨extra, he, hx⟩ := enumEnd_calls archive (openCalls self s pw)
  rw [stream_unfold env self s d callback pw archive hR]
  by_cases hOpen : openStatus archive s pw = S_OK
  · rw [if_neg (by simpa using hOpen)]
    cases callback with
    | none => exact noCallback hOpen rfl
    | some cb =>
      show P (if cb.OnFileCount (itemCount archive) = true then _ else _)
      cases hCount : cb.OnFileCount (itemCount archive) with
      | false =>
        rw [if_neg (by simp)]
        have := skipped cb hOpen rfl hCount
        simpa using this
      | true =>
        rw [if_pos rfl]
        cases hs : (enumEnd archive (openCalls self s pw)).succ with
        | false =>
          rw [if_pos rfl, he]
          refine readFailed cb extra hOpen rfl hCount hx ?_
          intro hall
          have := (enumEnd_ok archive (openCalls self s pw) hall).1
          rw [hs] at this
          exact Bool.noConfusion this
        | true =>
          rw [if_neg (by simp)]
          have hall := enumEnd_succ archive _ hs
          obtain ⟨_, hn, hz⟩ := enumEnd_ok archive (openCalls self s pw) hall
          rw [hn, hz, he]
          cases hItems : cb.OnFileItems (allNames archive) (allSizes archive) with
          | false =>
            rw [if_pos rfl]
            have := cancelled cb extra hOpen rfl hCount hx hall hItems
            simpa using this
          | true =>
            rw [if_neg (by simp)]
            exact extracted cb extra hOpen rfl hCount hx hall hItems
  · rw [if_pos hOpen]
    by_cases hM : HasMessage env (openStatus archive s pw)
    · have := openFailed hOpen hM
      unfold HasMessage at hM
      simpa [hM] using this
    · have := openFault hOpen hM
      unfold HasMessage at hM
      simp only [ne_eq, not_not] at hM
      simpa [hM] using this

/-- Helper: no `OnEnd` and no `Extract` among the property reads. -/
theorem getProperty_calls_plain (n : Nat) (extra : List Call)
    (hx : ∀ c ∈ extra, ∃ j id, c = Call.GetProperty j id ∧ j < n) :
    ∀ c ∈ extra, c.isOnEnd = false ∧ c.isExtract = false ∧ c.isCallbackOp = false := by
  intro c hc
  obtain ⟨j, id, rfl, _⟩ := hx c hc
  exact ⟨rfl, rfl, rfl⟩

theorem allReadsSucceed_goodReader : AllReadsSucceed goodReader := by
  intro i hi
  have : i < 2 := hi
  interval_cases i <;> exact ⟨rfl, rfl⟩

theorem getLast_append_close (l : List Call) :
    (l ++ [Call.Close]).getLast? = some Call.Close := by
  simp

/-- C1. Stream form: when the reader opens the archive, `OnFileCount` answers
true, every property read of the enumeration succeeds and `OnFileItems`
answers false, `reader.Extract` is not invoked and no extract callback is
constructed, `reader.Close` is invoked, and the call returns `S_OK`. -/
theorem cancel_before_extract (env : Platform) (self : SevenZipExtractor) (s : IStream)
    (d : TString) (cb : ProgressCallback) (pw : Option SevenZipPassword) (archive : IInArchive)
    (hR : env.GetArchiveReader self.m_compressionFormat = some archive)
    (hOpen : openStatus archive s pw = S_OK)
    (hCount : cb.OnFileCount (itemCount archive) = true)
    (hReads : AllReadsSucceed archive)
    (hItems : cb.OnFileItems (allNames archive) (allSizes archive) = false) :
    (∀ c ∈ (ExtractArchiveStream env self s d (some cb) pw).calls,
        c.isExtract = false ∧ c.isNewArchiveExtractCallback = false) ∧
    Call.Close ∈ (ExtractArchiveStream env self s d (some cb) pw).calls ∧
    (ExtractArchiveStream env self s d (some cb) pw).result = some S_OK := by
  obtain ⟨extra, hx, ho⟩ := stream_cancel env self s d cb pw archive hR hOpen hCount hReads hItems
  rw [ho]
  refine ⟨?_, by simp, rfl⟩
  intro c hc
  simp only [openCalls, List.append_assoc, List.cons_append, List.nil_append, List.mem_cons,
    List.mem_append, List.mem_singleton, List.not_mem_nil, or_false] at hc
  rcases hc with rfl | rfl | rfl | rfl | hc | rfl | rfl
  · exact ⟨rfl, rfl⟩
  · exact ⟨rfl, rfl⟩
  · exact ⟨rfl, rfl⟩
  · exact ⟨rfl, rfl⟩
  · have := hx c hc
    cases c <;> simp_all [Call.isGetProperty, Call.isExtract, Call.isNewArchiveExtractCallback]
  · exact ⟨rfl, rfl⟩
  · exact ⟨rfl, rfl⟩

theorem cancel_before_extract_witness :
    (∀ c ∈ (sampleRun goodReader (some cancelAtItems)).calls,
        c.isExtract = false ∧ c.isNewArchiveExtractCallback = false) ∧
    Call.Close ∈ (sampleRun goodReader (some cancelAtItems)).calls ∧
    (sampleRun goodReader (some cancelAtItems)).result = some S_OK :=
  cancel_before_extract (platformOf goodReader) sampleExtractor sixteenBytes "out"
    cancelAtItems none goodReader rfl rfl rfl allReadsSucceed_goodReader rfl

/-- C2, as the code has it. Stream form: when `OnFileItems` is invoked and
answers false, `OnEnd` is not invoked at all during the call, and the call
returns `S_OK`. -/
theorem cancel_reports_no_end (env : Platform) (self : SevenZipExtractor) (s : IStream)
    (d : TString) (cb : ProgressCallback) (pw : Option SevenZipPassword)
    (names : List TString) (sizes : List Nat)
    (hInvoked : Call.OnFileItems names sizes ∈
      (ExtractArchiveStream env self s d (some cb) pw).calls)
    (hItems : cb.OnFileItems names sizes = false) :
    (ExtractArchiveStream env self s d (some cb) pw).calls.countP Call.isOnEnd = 0 ∧
    (ExtractArchiveStream env self s d (some cb) pw).result = some S_OK := by
  obtain ⟨archive, cb2, hR, hcb, hOpen, hCount, hReads, rfl, rfl⟩ :=
    onFileItems_mem env self s d (some cb) pw names sizes hInvoked
  cases hcb
  obtain ⟨extra, hx, ho⟩ := stream_cancel env self s d cb pw archive hR hOpen hCount hReads hItems
  rw [ho]
  refine ⟨?_, rfl⟩
  have h0 : extra.countP Call.isOnEnd = 0 := by
    rw [List.countP_eq_zero]
    intro c hc
    have := hx c hc
    cases c <;> simp_all [Call.isGetProperty, Call.isOnEnd]
  simp [openCalls, List.countP_append, List.countP_cons, Call.isOnEnd, h0]

theorem cancel_reports_no_end_witness :
    (sampleRun goodReader (some cancelAtItems)).calls.countP Call.isOnEnd = 0 ∧
    (sampleRun goodReader (some cancelAtItems)).result = some S_OK :=
  cancel_reports_no_end (platformOf goodReader) sampleExtractor sixteenBytes "out"
    cancelAtItems none ["readme.txt", "data/a.bin"] [6, 1024] (by decide) rfl

/-- C2 counterexample. Two entries, `OnFileCount` true, `OnFileItems` false:
the call returns `S_OK` but `OnEnd` is invoked zero times, not once. -/
theorem cancel_onEnd_once_counterexample :
    cancelAtItems.OnFileCount (itemCount goodReader) = true ∧
    cancelAtItems.OnFileItems (allNames goodReader) (allSizes goodReader) = false ∧
    (sampleRun goodReader (some cancelAtItems)).result = some S_OK ∧
    (sampleRun goodReader (some cancelAtItems)).calls.countP Call.isOnEnd = 0 ∧
    ¬ ((sampleRun goodReader (some cancelAtItems)).calls.countP Call.isOnEnd = 1) := by
  decide

/-- C4. On this platform `FormatMessage` succeeds with the text
"Unspecified error" for every code, yet after each of the three failures
(the path does not open, `reader.Open` fails, `reader.Extract` fails)
`GetErrorString` still returns the initial empty text. -/
theorem message_not_captured :
    (platformOf goodReader).FormatMessage ERROR_OPEN_FAILED = (17, "Unspecified error") ∧
    (platformOf goodReader).FormatMessage E_FAIL = (17, "Unspecified error") ∧
    (ExtractArchivePath (platformOf goodReader) sampleExtractor "out" none none).result
      = some ERROR_OPEN_FAILED ∧
    GetErrorString (ExtractArchivePath (platformOf goodReader) sampleExtractor "out" none none).self
      = "" ∧
    (sampleRun closedReader none).result = some E_FAIL ∧
    GetErrorString (sampleRun closedReader none).self = "" ∧
    (sampleRun failingExtractReader none).result = some E_FAIL ∧
    GetErrorString (sampleRun failingExtractReader none).self = "" := by
  decide

/-- C5 counterexample. On a platform whose format detection fails, the
stream form run on sixteen bytes still acquires a reader and invokes
`reader.Open`, and returns the status of `Open`. -/
theorem unknown_format_counterexample :
    (platformOf closedReader).DetectCompressionFormat sampleExtractor.m_archivePath
      sampleExtractor.m_compressionFormat = (false, 0) ∧
    sixteenBytes.length = 16 ∧
    Call.GetArchiveReader 0 ∈ (sampleRun closedReader (some acceptAll)).calls ∧
    (∃ c ∈ (sampleRun closedReader (some acceptAll)).calls, c.isOpen = true) ∧
    (sampleRun closedReader (some acceptAll)).result = some E_FAIL := by
  decide

/-- C5, as the code has it. The stream form runs no format detection: the
detector is not among its calls and its outcome is the same whatever the
detector would answer.  For every input stream its first call is
`GetArchiveReader` on the stored `m_compressionFormat`, and with the reader
obtained it invokes `reader.Open` on the stream.  A status it returns is the
non-success status of `Open`, `E_FAIL`, `S_OK` or the status of `Extract`:
there is no status of its own for an unknown format.  When `Open` returns a
non-success status for which `FormatMessage` has a message, the call returns
that status and no callback operation is invoked. -/
theorem stream_form_opens_undetected (env : Platform) (self : SevenZipExtractor) (s : IStream)
    (d : TString) (callback : Option ProgressCallback) (pw : Option SevenZipPassword)
    (archive : IInArchive)
    (hR : env.GetArchiveReader self.m_compressionFormat = some archive) :
    Call.DetectCompressionFormat ∉ (ExtractArchiveStream env self s d callback pw).calls ∧
    (∀ detect, ExtractArchiveStream { env with DetectCompressionFormat := detect } self s d
        callback pw = ExtractArchiveStream env self s d callback pw) ∧
    (ExtractArchiveStream env self s d callback pw).calls.head?
      = some (Call.GetArchiveReader self.m_compressionFormat) ∧
    Call.Open { baseStream := s } none (newOpenCallback pw)
      ∈ (ExtractArchiveStream env self s d callback pw).calls ∧
    (∀ hr, (ExtractArchiveStream env self s d callback pw).result = some hr →
      (hr = openStatus archive s pw ∧ openStatus archive s pw ≠ S_OK) ∨ hr = E_FAIL ∨
      hr = S_OK ∨ hr = extractStatus archive self d callback pw) ∧
    (openStatus archive s pw ≠ S_OK → HasMessage env (openStatus archive s pw) →
      (ExtractArchiveStream env self s d callback pw).result = some (openStatus archive s pw) ∧
      ∀ c ∈ (ExtractArchiveStream env self s d callback pw).calls, c.isCallbackOp = false) := by
  refine ⟨?_, fun detect => rfl, ?_⟩
  · refine stream_paths env self s d callback pw archive hR
      (fun o => Call.DetectCompressionFormat ∉ o.calls) ?_ ?_ ?_ ?_ ?_ ?_ ?_
    · intro _ _; simp [openCalls]
    · intro _ _; simp [openCalls]
    · intro _ _ h
      have := extractAndClose_mem _ _ _ _ _ _ _ _ h
      simp [openCalls, extractCall] at this
    · intro cb _ _ _ h
      have := extractAndClose_mem _ _ _ _ _ _ _ _ h
      simp [openCalls, extractCall] at this
    · intro cb extra _ _ _ hx _ h
      simp only [openCalls, List.append_assoc, List.cons_append, List.nil_append,
        List.mem_cons, List.mem_append, List.mem_singleton, List.not_mem_nil, or_false,
        reduceCtorEq, false_or] at h
      obtain ⟨j, id, h2, _⟩ := hx _ h
      cases h2
    · intro cb extra _ _ _ hx _ _ h
      simp only [openCalls, List.append_assoc, List.cons_append, List.nil_append,
        List.mem_cons, List.mem_append, List.mem_singleton, List.not_mem_nil, or_false,
        reduceCtorEq, false_or] at h
      obtain ⟨j, id, h2, _⟩ := hx _ h
      cases h2
    · intro cb extra _ _ _ hx _ _ h
      have := extractAndClose_mem _ _ _ _ _ _ _ _ h
      simp only [openCalls, List.append_assoc, List.cons_append, List.nil_append,
        List.mem_cons, List.mem_append, List.mem_singleton, List.not_mem_nil, or_false,
        reduceCtorEq, false_or, extractCall] at this
      obtain ⟨j, id, h2, _⟩ := hx _ this
      cases h2
  · refine stream_paths env self s d callback pw archive hR
      (fun o => o.calls.head? = some (Call.GetArchiveReader self.m_compressionFormat) ∧
        Call.Open { baseStream := s } none (newOpenCallback pw) ∈ o.calls ∧
        (∀ hr, o.result = some hr →
          (hr = openStatus archive s pw ∧ openStatus archive s pw ≠ S_OK) ∨ hr = E_FAIL ∨
          hr = S_OK ∨ hr = extractStatus archive self d callback pw) ∧
        (openStatus archive s pw ≠ S_OK → HasMessage env (openStatus archive s pw) →
          o.result = some (openStatus archive s pw) ∧ ∀ c ∈ o.calls, c.isCallbackOp = false))
      ?_ ?_ ?_ ?_ ?_ ?_ ?_
    · intro h _
      simp [openCalls, h, Call.isCallbackOp]
    · intro h hNo
      refine ⟨by simp [openCalls], by simp [openCalls], by simp, fun _ hM => absurd hM hNo⟩
    · intro h hc
      subst hc
      obtain ⟨rest, _, he⟩ := extractAndClose_calls env self archive d none pw (openCalls self s pw)
      refine ⟨by rw [he]; simp [openCalls], by rw [he]; simp [openCalls], ?_,
        fun hF => absurd h hF⟩
      intro hr hres
      by_cases hMsg : extractStatus archive self d none pw ≠ S_OK →
          HasMessage env (extractStatus archive self d none pw)
      · rw [extractAndClose_ok env self archive d none pw _ hMsg] at hres
        simp only [Option.some.injEq] at hres
        exact Or.inr (Or.inr (Or.inr hres.symm))
      · simp only [Classical.not_imp] at hMsg
        rw [extractAndClose_fault env self archive d none pw _ hMsg.1 hMsg.2] at hres
        cases hres
    · intro cb h hc _
      subst hc
      obtain ⟨rest, _, he⟩ := extractAndClose_calls env self archive d (some cb) pw
        (openCalls self s pw ++ [Call.GetNumberOfItems, Call.OnFileCount (itemCount archive)])
      refine ⟨by rw [he]; simp [openCalls], by rw [he]; simp [openCalls], ?_,
        fun hF => absurd h hF⟩
      intro hr hres
      by_cases hMsg : extractStatus archive self d (some cb) pw ≠ S_OK →
          HasMessage env (extractStatus archive self d (some cb) pw)
      · rw [extractAndClose_ok env self archive d (some cb) pw _ hMsg] at hres
        simp only [Option.some.injEq] at hres
        exact Or.inr (Or.inr (Or.inr hres.symm))
      · simp only [Classical.not_imp] at hMsg
        rw [extractAndClose_fault env self archive d (some cb) pw _ hMsg.1 hMsg.2] at hres
        cases hres
    · intro cb extra h _ _ _ _
      refine ⟨by simp [openCalls], by simp [openCalls], ?_, fun hF => absurd h hF⟩
      intro hr hres
      simp only [Option.some.injEq] at hres
      exact Or.inr (Or.inl hres.symm)
    · intro cb extra h _ _ _ _ _
      refine ⟨by simp [openCalls], by simp [openCalls], ?_, fun hF => absurd h hF⟩
      intro hr hres
      simp only [Option.some.injEq] at hres
      exact Or.inr (Or.inr (Or.inl hres.symm))
    · intro cb extra h hc _ _ _ _
      subst hc
      obtain ⟨rest, _, he⟩ := extractAndClose_calls env self archive d (some cb) pw
        (openCalls self s pw ++ [Call.GetNumberOfItems, Call.OnFileCount (itemCount archive)]
          ++ extra ++ [Call.OnFileItems (allNames archive) (allSizes archive)])
      refine ⟨by rw [he]; simp [openCalls], by rw [he]; simp [openCalls], ?_,
        fun hF => absurd h hF⟩
      intro hr hres
      by_cases hMsg : extractStatus archive self d (some cb) pw ≠ S_OK →
          HasMessage env (extractStatus archive self d (some cb) pw)
      · rw [extractAndClose_ok env self archive d (some cb) pw _ hMsg] at hres
        simp only [Option.some.injEq] at hres
        exact Or.inr (Or.inr (Or.inr hres.symm))
      · simp only [Classical.not_imp] at hMsg
        rw [extractAndClose_fault env self archive d (some cb) pw _ hMsg.1 hMsg.2] at hres
        cases hres

theorem stream_form_opens_undetected_witness :
    Call.DetectCompressionFormat ∉ (sampleRun closedReader (some acceptAll)).calls ∧
    (sampleRun closedReader (some acceptAll)).result
      = some (openStatus closedReader sixteenBytes none) ∧
    ∀ c ∈ (sampleRun closedReader (some acceptAll)).calls, c.isCallbackOp = false :=
  ⟨(stream_form_opens_undetected (platformOf closedReader) sampleExtractor sixteenBytes "out"
      (some acceptAll) none closedReader rfl).1,
    (stream_form_opens_undetected (platformOf closedReader) sampleExtractor sixteenBytes "out"
      (some acceptAll) none closedReader rfl).2.2.2.2.2 (by decide)
      (by unfold HasMessage; decide)⟩

/-- C6. Stream form with a callback whose `OnFileCount` answers true: when
the read of `kpidSize` or of `kpidPath` fails for an index `i` below the item
count, the call returns `E_FAIL`, `reader.Close` is invoked, neither
`OnFileItems` nor `reader.Extract` nor `OnEnd` is invoked, and no property of
an index greater than `i` is read. -/
theorem enumeration_failure_aborts (env : Platform) (self : SevenZipExtractor) (s : IStream)
    (d : TString) (cb : ProgressCallback) (pw : Option SevenZipPassword) (archive : IInArchive)
    (i : Nat)
    (hR : env.GetArchiveReader self.m_compressionFormat = some archive)
    (hOpen : openStatus archive s pw = S_OK)
    (hCount : cb.OnFileCount (itemCount archive) = true)
    (hi : i < itemCount archive)
    (hbad : (archive.GetProperty i PROPID.kpidSize).1 ≠ S_OK ∨
      (archive.GetProperty i PROPID.kpidPath).1 ≠ S_OK) :
    (ExtractArchiveStream env self s d (some cb) pw).result = some E_FAIL ∧
    Call.Close ∈ (ExtractArchiveStream env self s d (some cb) pw).calls ∧
    (∀ c ∈ (ExtractArchiveStream env self s d (some cb) pw).calls,
      c.isOnFileItems = false ∧ c.isExtract = false ∧ c.isOnEnd = false) ∧
    (∀ j id, Call.GetProperty j id ∈ (ExtractArchiveStream env self s d (some cb) pw).calls →
      j ≤ i) := by
  obtain ⟨hs, extra, he, hx⟩ := enumEnd_fail archive (openCalls self s pw) i hi hbad
  rw [stream_unfold env self s d (some cb) pw archive hR]
  simp only [hOpen, ne_eq, not_true_eq_false, if_false, hCount, if_true, hs, he]
  refine ⟨trivial, by simp, ?_, ?_⟩
  · intro c hc
    simp only [openCalls, List.append_assoc, List.cons_append, List.nil_append, List.mem_cons,
      List.mem_append, List.mem_singleton, List.not_mem_nil, or_false] at hc
    rcases hc with rfl | rfl | rfl | rfl | hc | rfl
    · exact ⟨rfl, rfl, rfl⟩
    · exact ⟨rfl, rfl, rfl⟩
    · exact ⟨rfl, rfl, rfl⟩
    · exact ⟨rfl, rfl, rfl⟩
    · obtain ⟨j, id, rfl, _⟩ := hx c hc
      exact ⟨rfl, rfl, rfl⟩
    · exact ⟨rfl, rfl, rfl⟩
  · intro j id hc
    simp only [openCalls, List.append_assoc, List.cons_append, List.nil_append, List.mem_cons,
      List.mem_append, List.mem_singleton, List.not_mem_nil, or_false, reduceCtorEq,
      false_or] at hc
    obtain ⟨j2, id2, he2, hle⟩ := hx _ hc
    cases he2
    exact hle

theorem enumeration_failure_aborts_witness :
    (sampleRun brokenEntryReader (some acceptAll)).result = some E_FAIL ∧
    Call.Close ∈ (sampleRun brokenEntryReader (some acceptAll)).calls ∧
    (∀ c ∈ (sampleRun brokenEntryReader (some acceptAll)).calls,
      c.isOnFileItems = false ∧ c.isExtract = false ∧ c.isOnEnd = false) ∧
    (∀ j id, Call.GetProperty j id ∈ (sampleRun brokenEntryReader (some acceptAll)).calls →
      j ≤ 1) :=
  enumeration_failure_aborts (platformOf brokenEntryReader) sampleExtractor sixteenBytes "out"
    acceptAll none brokenEntryReader 1 rfl rfl rfl (by decide) (by decide)

/-- The skip path off the faulty message block.  Stream form with a callback:
when `reader.Open` succeeds, `OnFileCount` answers false, and `FormatMessage`
has a message for the status of `Extract` in case it fails, the calls are
exactly: acquire the reader, open, count the items, `OnFileCount`, build the
extract callback, `reader.Extract` (all entries, test mode off), `OnEnd`,
`Close`, and the call returns the status of `Extract`. -/
theorem skip_enumeration_path (env : Platform) (self : SevenZipExtractor)
    (s : IStream) (d : TString) (cb : ProgressCallback) (pw : Option SevenZipPassword)
    (archive : IInArchive)
    (hR : env.GetArchiveReader self.m_compressionFormat = some archive)
    (hOpen : openStatus archive s pw = S_OK)
    (hCount : cb.OnFileCount (itemCount archive) = false)
    (hMsg : extractStatus archive self d (some cb) pw ≠ S_OK →
      HasMessage env (extractStatus archive self d (some cb) pw)) :
    (ExtractArchiveStream env self s d (some cb) pw).calls =
      [Call.GetArchiveReader self.m_compressionFormat,
       Call.Open { baseStream := s } none (newOpenCallback pw),
       Call.GetNumberOfItems,
       Call.OnFileCount (itemCount archive),
       Call.NewArchiveExtractCallback (newExtractCallback self d (some cb)),
       Call.Extract none (UInt32_size - 1) false (extractCallbackOf self d (some cb) pw),
       Call.OnEnd self.m_archivePath,
       Call.Close] ∧
    (ExtractArchiveStream env self s d (some cb) pw).result
      = some (archive.Extract none (UInt32_size - 1) false
          (extractCallbackOf self d (some cb) pw)) := by
  rw [stream_unfold env self s d (some cb) pw archive hR]
  simp only [hOpen, ne_eq, not_true_eq_false, if_false, hCount, Bool.false_eq_true]
  rw [extractAndClose_ok env self archive d (some cb) pw _ hMsg]
  exact ⟨by simp [openCalls, extractCall], rfl⟩

/-- C7. The skip path at a failing `Extract` without a message.  `Open`
succeeds, `OnFileCount` answers false, `Extract` returns `E_FAIL`, and
`FormatMessage` returns 0 for `E_FAIL`: the run stops in the message block of
lines 141-148.  No status is returned, and neither `OnEnd` nor `Close` has
been invoked. -/
theorem skip_path_stops_in_message_block :
    openStatus failingExtractReader sixteenBytes none = S_OK ∧
    skipEnumeration.OnFileCount (itemCount failingExtractReader) = false ∧
    extractStatus failingExtractReader sampleExtractor "out" (some skipEnumeration) none
      = E_FAIL ∧
    ((silentPlatform failingExtractReader).FormatMessage E_FAIL).1 = 0 ∧
    (silentRun failingExtractReader (some skipEnumeration)).result = none ∧
    (silentRun failingExtractReader (some skipEnumeration)).calls.countP Call.isExtract = 1 ∧
    (silentRun failingExtractReader (some skipEnumeration)).calls.countP Call.isOnEnd = 0 ∧
    (silentRun failingExtractReader (some skipEnumeration)).calls.count Call.Close = 0 := by
  decide

/-- C8 counterexample. The stored path of the one entry is "ab", a NUL, "cd":
`OnFileItems` is invoked with the name "ab", not with the stored path. -/
theorem names_whole_path_counterexample :
    nulNameReader.GetProperty 0 PROPID.kpidPath
      = (S_OK, { vt := VT_BSTR, uhVal := 0, bstrVal := "ab\x00cd" }) ∧
    Call.OnFileItems ["ab"] [4] ∈ (sampleRun nulNameReader (some acceptAll)).calls ∧
    Call.OnFileItems ["ab\x00cd"] [4] ∉ (sampleRun nulNameReader (some acceptAll)).calls := by
  decide

/-- C8, as the code has it. Stream form, for a reader reporting
`N = itemCount` items: whenever `OnFileItems names sizes` is invoked, both
lists have length `N`, and for every `i < N` the entry `sizes[i]` is the
`uhVal` read from the `kpidSize` property of entry `i` and `names[i]` is the
`bstrVal` of its `kpidPath` property up to its first NUL character when that
property has type `VT_BSTR`, the empty string otherwise.  For `N = 0`, once
the reader is open, `OnFileCount 0` is invoked and the lists handed to
`OnFileItems` are empty. -/
theorem items_describe_entries (env : Platform) (self : SevenZipExtractor) (s : IStream)
    (d : TString) (cb : ProgressCallback) (pw : Option SevenZipPassword) (archive : IInArchive)
    (hR : env.GetArchiveReader self.m_compressionFormat = some archive) :
    (∀ names sizes,
      Call.OnFileItems names sizes ∈ (ExtractArchiveStream env self s d (some cb) pw).calls →
      names.length = itemCount archive ∧ sizes.length = itemCount archive ∧
      ∀ i, i < itemCount archive →
        sizes[i]? = some (archive.GetProperty i PROPID.kpidSize).2.uhVal ∧
        names[i]? = some
          (if (archive.GetProperty i PROPID.kpidPath).2.vt = VT_BSTR
            then c_str (archive.GetProperty i PROPID.kpidPath).2.bstrVal else "")) ∧
    (openStatus archive s pw = S_OK → itemCount archive = 0 →
      Call.OnFileCount 0 ∈ (ExtractArchiveStream env self s d (some cb) pw).calls ∧
      (cb.OnFileCount 0 = true →
        Call.OnFileItems [] [] ∈ (ExtractArchiveStream env self s d (some cb) pw).calls) ∧
      ∀ names sizes,
        Call.OnFileItems names sizes ∈ (ExtractArchiveStream env self s d (some cb) pw).calls →
        names = [] ∧ sizes = []) := by
  have part1 : ∀ names sizes,
      Call.OnFileItems names sizes ∈ (ExtractArchiveStream env self s d (some cb) pw).calls →
      names = allNames archive ∧ sizes = allSizes archive := by
    intro names sizes h
    obtain ⟨archive2, cb2, hR2, _, _, _, _, hn, hz⟩ :=
      onFileItems_mem env self s d (some cb) pw names sizes h
    rw [hR] at hR2
    cases hR2
    exact ⟨hn, hz⟩
  refine ⟨?_, ?_⟩
  · intro names sizes h
    obtain ⟨rfl, rfl⟩ := part1 names sizes h
    refine ⟨by simp [allNames], by simp [allSizes], ?_⟩
    intro i hi
    constructor
    · simp [allSizes, itemSize, List.getElem?_map, List.getElem?_range hi]
    · simp [allNames, itemName, List.getElem?_map, List.getElem?_range hi]
  · intro hOpen h0
    refine ⟨?_, ?_, ?_⟩
    · rw [← h0]
      refine stream_paths env self s d (some cb) pw archive hR
        (fun o => Call.OnFileCount (itemCount archive) ∈ o.calls) ?_ ?_ ?_ ?_ ?_ ?_ ?_
      · intro h; exact absurd hOpen h
      · intro h; exact absurd hOpen h
      · intro _ h; cases h
      · intro cb2 _ _ _
        obtain ⟨rest, _, he⟩ := extractAndClose_calls env self archive d (some cb2) pw
          (openCalls self s pw ++ [Call.GetNumberOfItems, Call.OnFileCount (itemCount archive)])
        rw [he]; simp
      · intro cb2 extra _ _ _ _ _; simp
      · intro cb2 extra _ _ _ _ _ _; simp
      · intro cb2 extra _ _ _ _ _ _
        obtain ⟨rest, _, he⟩ := extractAndClose_calls env self archive d (some cb2) pw
          (openCalls self s pw ++ [Call.GetNumberOfItems, Call.OnFileCount (itemCount archive)]
            ++ extra ++ [Call.OnFileItems (allNames archive) (allSizes archive)])
        rw [he]; simp
    · intro hCount
      have hall : AllReadsSucceed archive := by
        intro i hi
        omega
      have hn : allNames archive = [] := by simp [allNames, h0]
      have hz : allSizes archive = [] := by simp [allSizes, h0]
      rw [← hn, ← hz]
      refine stream_paths env self s d (some cb) pw archive hR
        (fun o => Call.OnFileItems (allNames archive) (allSizes archive) ∈ o.calls)
        ?_ ?_ ?_ ?_ ?_ ?_ ?_
      · intro h; exact absurd hOpen h
      · intro h; exact absurd hOpen h
      · intro _ h; cases h
      · intro cb2 _ h hc
        cases h
        rw [h0, hCount] at hc
        exact Bool.noConfusion hc
      · intro cb2 extra _ _ _ _ hbad
        exact absurd hall hbad
      · intro cb2 extra _ _ _ _ _ _; simp
      · intro cb2 extra _ _ _ _ _ _
        obtain ⟨rest, _, he⟩ := extractAndClose_calls env self archive d (some cb2) pw
          (openCalls self s pw ++ [Call.GetNumberOfItems, Call.OnFileCount (itemCount archive)]
            ++ extra ++ [Call.OnFileItems (allNames archive) (allSizes archive)])
        rw [he]; simp
    · intro names sizes h
      obtain ⟨rfl, rfl⟩ := part1 names sizes h
      simp [allNames, allSizes, h0]

theorem items_describe_entries_witness :
    (∀ names sizes,
      Call.OnFileItems names sizes ∈ (sampleRun nulNameReader (some acceptAll)).calls →
      names.length = itemCount nulNameReader ∧ sizes.length = itemCount nulNameReader ∧
      ∀ i, i < itemCount nulNameReader →
        sizes[i]? = some (nulNameReader.GetProperty i PROPID.kpidSize).2.uhVal ∧
        names[i]? = some
          (if (nulNameReader.GetProperty i PROPID.kpidPath).2.vt = VT_BSTR
            then c_str (nulNameReader.GetProperty i PROPID.kpidPath).2.bstrVal else "")) ∧
    Call.OnFileItems ["ab"] [4] ∈ (sampleRun nulNameReader (some acceptAll)).calls :=
  ⟨(items_describe_entries (platformOf nulNameReader) sampleExtractor sixteenBytes "out"
      acceptAll none nulNameReader rfl).1, by decide⟩

/-- Finalization off the faulty message block.  Stream form: on every path
that reaches `reader.Extract`, with `FormatMessage` having a message for its
status in case it fails, the call returns the status that `Extract` returned.
With a callback, the calls end with `Extract`, `OnEnd m_archivePath`, `Close`
in this order and `OnEnd` is invoked nowhere else.  Without a callback no
callback operation is invoked and the last call is `Close`. -/
theorem finalization_path (env : Platform) (self : SevenZipExtractor) (s : IStream)
    (d : TString) (callback : Option ProgressCallback) (pw : Option SevenZipPassword)
    (archive : IInArchive)
    (hR : env.GetArchiveReader self.m_compressionFormat = some archive)
    (hReach : ∃ c ∈ (ExtractArchiveStream env self s d callback pw).calls, c.isExtract = true)
    (hMsg : extractStatus archive self d callback pw ≠ S_OK →
      HasMessage env (extractStatus archive self d callback pw)) :
    (ExtractArchiveStream env self s d callback pw).result
      = some (archive.Extract none (UInt32_size - 1) false
          (extractCallbackOf self d callback pw)) ∧
    (callback.isSome = true →
      (∃ pre, (ExtractArchiveStream env self s d callback pw).calls
          = pre ++ [Call.Extract none (UInt32_size - 1) false
              (extractCallbackOf self d callback pw),
            Call.OnEnd self.m_archivePath, Call.Close] ∧
        ∀ c ∈ pre, c.isOnEnd = false ∧ c.isExtract = false) ∧
      (ExtractArchiveStream env self s d callback pw).calls.countP Call.isOnEnd = 1) ∧
    (callback = none →
      (∀ c ∈ (ExtractArchiveStream env self s d callback pw).calls, c.isCallbackOp = false) ∧
      (ExtractArchiveStream env self s d callback pw).calls.getLast? = some Call.Close) := by
  revert hReach
  refine stream_paths env self s d callback pw archive hR
    (fun o => (∃ c ∈ o.calls, c.isExtract = true) →
      o.result = some (archive.Extract none (UInt32_size - 1) false
          (extractCallbackOf self d callback pw)) ∧
      (callback.isSome = true →
        (∃ pre, o.calls = pre ++ [Call.Extract none (UInt32_size - 1) false
              (extractCallbackOf self d callback pw),
            Call.OnEnd self.m_archivePath, Call.Close] ∧
          ∀ c ∈ pre, c.isOnEnd = false ∧ c.isExtract = false) ∧
        o.calls.countP Call.isOnEnd = 1) ∧
      (callback = none →
        (∀ c ∈ o.calls, c.isCallbackOp = false) ∧ o.calls.getLast? = some Call.Close))
    ?_ ?_ ?_ ?_ ?_ ?_ ?_
  · intro _ _ h
    simp [openCalls, Call.isExtract] at h
  · intro _ _ h
    simp [openCalls, Call.isExtract] at h
  · intro _ hc _
    subst hc
    rw [extractAndClose_ok env self archive d none pw _ hMsg]
    refine ⟨rfl, by simp, fun _ => ⟨?_, getLast_append_close _⟩⟩
    simp [openCalls, extractCall, Call.isCallbackOp]
  · intro cb _ hc _ _
    subst hc
    rw [extractAndClose_ok env self archive d (some cb) pw _ hMsg]
    refine ⟨rfl, fun _ => ⟨⟨openCalls self s pw ++ [Call.GetNumberOfItems,
      Call.OnFileCount (itemCount archive),
      Call.NewArchiveExtractCallback (newExtractCallback self d (some cb))], ?_, ?_⟩, ?_⟩,
      by simp⟩
    · simp [extractCall]
    · simp [openCalls, Call.isOnEnd, Call.isExtract]
    · simp [extractCall, openCalls, List.countP_cons, Call.isOnEnd]
  · intro cb extra _ _ _ hx _ h
    have hp := getProperty_calls_plain _ extra hx
    obtain ⟨c, hc, he⟩ := h
    simp only [openCalls, List.append_assoc, List.cons_append, List.nil_append, List.mem_cons,
      List.mem_append, List.mem_singleton, List.not_mem_nil, or_false] at hc
    rcases hc with rfl | rfl | rfl | rfl | hc | rfl
    · cases he
    · cases he
    · cases he
    · cases he
    · rw [(hp c hc).2.1] at he; cases he
    · cases he
  · intro cb extra _ _ _ hx _ _ h
    have hp := getProperty_calls_plain _ extra hx
    obtain ⟨c, hc, he⟩ := h
    simp only [openCalls, List.append_assoc, List.cons_append, List.nil_append, List.mem_cons,
      List.mem_append, List.mem_singleton, List.not_mem_nil, or_false] at hc
    rcases hc with rfl | rfl | rfl | rfl | hc | rfl | rfl
    · cases he
    · cases he
    · cases he
    · cases he
    · rw [(hp c hc).2.1] at he; cases he
    · cases he
    · cases he
  · intro cb extra _ hc _ hx _ _ _
    subst hc
    rw [extractAndClose_ok env self archive d (some cb) pw _ hMsg]
    have hp := getProperty_calls_plain _ extra hx
    have h0 : extra.countP Call.isOnEnd = 0 := by
      rw [List.countP_eq_zero]
      intro c hc
      simp [(hp c hc).1]
    refine ⟨rfl, fun _ => ⟨⟨openCalls self s pw ++ [Call.GetNumberOfItems,
      Call.OnFileCount (itemCount archive)] ++ extra ++
      [Call.OnFileItems (allNames archive) (allSizes archive),
      Call.NewArchiveExtractCallback (newExtractCallback self d (some cb))], ?_, ?_⟩, ?_⟩,
      by simp⟩
    · simp [extractCall]
    · intro c hc
      simp only [openCalls, List.append_assoc, List.cons_append, List.nil_append, List.mem_cons,
        List.mem_append, List.mem_singleton, List.not_mem_nil, or_false] at hc
      rcases hc with rfl | rfl | rfl | rfl | hc | rfl | rfl
      · exact ⟨rfl, rfl⟩
      · exact ⟨rfl, rfl⟩
      · exact ⟨rfl, rfl⟩
      · exact ⟨rfl, rfl⟩
      · exact ⟨(hp c hc).1, (hp c hc).2.1⟩
      · exact ⟨rfl, rfl⟩
      · exact ⟨rfl, rfl⟩
    · simp [extractCall, openCalls, List.countP_cons, List.countP_append, Call.isOnEnd, h0]

/-- C9. Finalization at a failing `Extract` without a message.  `Extract` is
reached and returns `E_FAIL`, and `FormatMessage` returns 0 for `E_FAIL`: the
run stops in the message block of lines 141-148.  With a callback and without
one, no status is returned, and neither `OnEnd` nor `Close` has been invoked. -/
theorem finalization_stops_in_message_block :
    extractStatus failingExtractReader sampleExtractor "out" (some acceptAll) none = E_FAIL ∧
    ((silentPlatform failingExtractReader).FormatMessage E_FAIL).1 = 0 ∧
    (silentRun failingExtractReader (some acceptAll)).calls.countP Call.isExtract = 1 ∧
    (silentRun failingExtractReader (some acceptAll)).result = none ∧
    (silentRun failingExtractReader (some acceptAll)).calls.countP Call.isOnEnd = 0 ∧
    (silentRun failingExtractReader (some acceptAll)).calls.count Call.Close = 0 ∧
    (silentRun failingExtractReader none).calls.countP Call.isExtract = 1 ∧
    (silentRun failingExtractReader none).result = none ∧
    (silentRun failingExtractReader none).calls.count Call.Close = 0 := by
  decide

/-- Open failure off the faulty message block.  Stream form: when
`reader.Open` returns a non-success status for which `FormatMessage` has a
message, the call returns exactly that status; the only calls made are the
acquisition of the reader and `Open`. -/
theorem open_failure_path (env : Platform) (self : SevenZipExtractor) (s : IStream)
    (d : TString) (callback : Option ProgressCallback) (pw : Option SevenZipPassword)
    (archive : IInArchive)
    (hR : env.GetArchiveReader self.m_compressionFormat = some archive)
    (hFail : openStatus archive s pw ≠ S_OK)
    (hMsg : HasMessage env (openStatus archive s pw)) :
    (ExtractArchiveStream env self s d callback pw).result = some (openStatus archive s pw) ∧
    (ExtractArchiveStream env self s d callback pw).calls
      = [Call.GetArchiveReader self.m_compressionFormat,
         Call.Open { baseStream := s } none (newOpenCallback pw)] := by
  unfold HasMessage at hMsg
  rw [stream_unfold env self s d callback pw archive hR]
  simp [hFail, hMsg, openCalls]

/-- C10. Open failure without a message.  `reader.Open` returns `E_FAIL` and
`FormatMessage` returns 0 for `E_FAIL`: the run stops in the message block of
lines 63-70 and no status is returned. -/
theorem open_failure_stops_in_message_block :
    openStatus closedReader sixteenBytes none = E_FAIL ∧
    ((silentPlatform closedReader).FormatMessage E_FAIL).1 = 0 ∧
    (silentRun closedReader (some acceptAll)).result = none ∧
    (silentRun closedReader (some acceptAll)).calls
      = [Call.GetArchiveReader 0,
         Call.Open { baseStream := sixteenBytes } none (newOpenCallback none)] := by
  decide

/-- The path form off the faulty message block.  When `OpenFileToRead` returns
null and `FormatMessage` has a message for `ERROR_OPEN_FAILED`, the call
returns `ERROR_OPEN_FAILED` and makes no call that acquires a reader, no
`reader.Open` and no callback operation; when the path opens as `fileStream`,
the returned status, the state the extractor is left in and the calls that
follow the opening of the path are those of the stream form run on
`fileStream` with the same destination, callback and password. -/
theorem path_form_delegates (env : Platform) (self : SevenZipExtractor) (d : TString)
    (callback : Option ProgressCallback) (pw : Option SevenZipPassword) :
    (env.OpenFileToRead self.m_archivePath = none → HasMessage env ERROR_OPEN_FAILED →
      (ExtractArchivePath env self d callback pw).result = some ERROR_OPEN_FAILED ∧
      ∀ c ∈ (ExtractArchivePath env self d callback pw).calls,
        c.isGetArchiveReader = false ∧ c.isOpen = false ∧ c.isCallbackOp = false) ∧
    (∀ fileStream, env.OpenFileToRead self.m_archivePath = some fileStream →
      (ExtractArchivePath env self d callback pw).result
        = (ExtractArchiveStream env (afterDetection env self) fileStream d callback pw).result ∧
      (ExtractArchivePath env self d callback pw).self
        = (ExtractArchiveStream env (afterDetection env self) fileStream d callback pw).self ∧
      (ExtractArchivePath env self d callback pw).calls
        = [Call.DetectCompressionFormat, Call.OpenFileToRead self.m_archivePath] ++
          (ExtractArchiveStream env (afterDetection env self) fileStream d callback pw).calls) := by
  constructor
  · intro h hMsg
    unfold HasMessage at hMsg
    simp [ExtractArchivePath, h, captureMessage, hMsg, Call.isGetArchiveReader, Call.isOpen,
      Call.isCallbackOp]
  · intro fileStream h
    simp [ExtractArchivePath, h, afterDetection]

/-- C11. The path form at a path that does not open, without a message.
`OpenFileToRead` returns null and `FormatMessage` returns 0 for
`ERROR_OPEN_FAILED`: the run stops in the message block of lines 34-41 and
no status is returned. -/
theorem path_open_failure_stops_in_message_block :
    (silentPlatform goodReader).OpenFileToRead sampleExtractor.m_archivePath = none ∧
    ((silentPlatform goodReader).FormatMessage ERROR_OPEN_FAILED).1 = 0 ∧
    (ExtractArchivePath (silentPlatform goodReader) sampleExtractor "out" (some acceptAll)
      none).result = none ∧
    (ExtractArchivePath (silentPlatform goodReader) sampleExtractor "out" (some acceptAll)
      none).calls = [Call.DetectCompressionFormat, Call.OpenFileToRead "a.7z"] := by
  decide

end SevenZip
